import Mathlib

/-!
# Verification of the mailtrash disposable-mail relay

Shallow embedding of the two source variants of the repository
(`src/index.js` and the HTTPS variant `src/unnamed/part_000`): the
`smartExtract` heuristic, the `escapeHTML` sanitiser, the in-RAM
`mailStorage` Map with its 15-minute `setTimeout` expiry, the
`GET /view/:id` handlers and the SMTP `onData` intake handler.

Strings are modelled as Lean `String` (a list of characters); JavaScript
falsiness of an optional string (`undefined`, `null`, `""`) is modelled
with `Option String` plus an explicit emptiness test.  Time is a `Nat`
millisecond clock: an entry's `setTimeout` deadline is recorded at
insertion and a read at time `now` sees exactly the entries whose timer
has not yet fired (`now < expireAt`).
-/

namespace Mailtrash

/-! ## Character classes of the JavaScript regexes (non-unicode mode) -/

/-- `\d` of a JavaScript regex: the ASCII digits. -/
def isDigitChar (c : Char) : Bool := c.isDigit

/-- Word character for `\b` in a JavaScript regex: `[A-Za-z0-9_]`. -/
def isWordChar (c : Char) : Bool := c.isAlphanum || c == '_'

/-- `\s` of a JavaScript regex: whitespace and line/paragraph separators. -/
def jsWhitespace (c : Char) : Bool :=
  [0x9, 0xa, 0xb, 0xc, 0xd, 0x20, 0xa0, 0x1680, 0x2028, 0x2029, 0x202f,
    0x205f, 0x3000, 0xfeff].contains c.toNat
  || decide (0x2000 ≤ c.toNat ∧ c.toNat ≤ 0x200a)

/-- Line terminators, the characters the regex metacharacter `.` refuses. -/
def lineTerm (c : Char) : Bool := [0xa, 0xd, 0x2028, 0x2029].contains c.toNat

/-! ## The code regex `\b\d{4,8}\b` of `smartExtract` -/

/-- `\d{n}` anchored at the front of `l`: `l` has at least `n` characters
and its first `n` characters are decimal digits. -/
def digitsTake (l : List Char) (n : Nat) : Bool :=
  ((l.take n).length == n) && (l.take n).all isDigitChar

/-- The trailing `\b` after `n` digit characters: the position after the
first `n` characters of `l` is the end of input or a non-word character
(the preceding character is a digit, hence a word character). -/
def boundAfter (l : List Char) (n : Nat) : Bool :=
  match (l.drop n).head? with
  | none => true
  | some c => !isWordChar c

/-- The body `\d{4,8}\b` of the code regex anchored at the front of `l`,
with the greedy quantifier's backtracking order: eight digits are tried
first, four last; the first length whose trailing word boundary holds
wins. -/
def matchCodeAt (l : List Char) : Option (List Char) :=
  if digitsTake l 8 && boundAfter l 8 then some (l.take 8)
  else if digitsTake l 7 && boundAfter l 7 then some (l.take 7)
  else if digitsTake l 6 && boundAfter l 6 then some (l.take 6)
  else if digitsTake l 5 && boundAfter l 5 then some (l.take 5)
  else if digitsTake l 4 && boundAfter l 4 then some (l.take 4)
  else none

/-- `text.match(/\b\d{4,8}\b/)`: try the pattern at every position from
left to right.  `prevW` records whether the character before the current
position is a word character; the leading `\b` holds at a digit exactly
when `prevW` is false (start of input counts as a non-word position). -/
def codeSearch : Bool → List Char → Option (List Char)
  | _, [] => none
  | prevW, c :: rest =>
    match (if prevW then none else matchCodeAt (c :: rest)) with
    | some r => some r
    | none => codeSearch (isWordChar c) rest

/-! ## The URL regex of `smartExtract` -/

/-- `l` begins with the pattern list `pat`. -/
def startsWith : List Char → List Char → Bool
  | [], _ => true
  | _ :: _, [] => false
  | p :: ps, c :: cs => (p == c) && startsWith ps cs

/-- `https?:\/\/` anchored at the front of `l`, greedy on the optional
`s`; returns the number of characters the scheme part consumed. -/
def schemeLen (l : List Char) : Option Nat :=
  if startsWith "https://".data l then some 8
  else if startsWith "http://".data l then some 7
  else none

/-- The URL regex `https?:\/\/[^\s$.?#].[^\s]*` anchored at the front of
`l`: the scheme, one character that is neither whitespace nor one of
`$ . ? #`, one character that is not a line terminator (the regex `.`
accepts anything else, a space included), then greedily every following
non-whitespace character. -/
def matchUrlAt (l : List Char) : Option (List Char) :=
  match schemeLen l with
  | none => none
  | some k =>
    match l.drop k with
    | [] => none
    | c1 :: rest1 =>
      if jsWhitespace c1 || ['$', '.', '?', '#'].contains c1 then none
      else
        match rest1 with
        | [] => none
        | c2 :: rest2 =>
          if lineTerm c2 then none
          else some (l.take k ++ c1 :: c2 :: rest2.takeWhile (fun c => !jsWhitespace c))

/-- Scanning loop of `text.match(urlRegex)` with the global flag; every
step consumes at least one character, so `fuel` is only a structural
bound on the number of steps and never runs out when it starts at the
input length. -/
def urlSearchGo : Nat → List Char → List (List Char)
  | 0, _ => []
  | _ + 1, [] => []
  | fuel + 1, c :: rest =>
    match matchUrlAt (c :: rest) with
    | some m => m :: urlSearchGo fuel (rest.drop (m.length - 1))
    | none => urlSearchGo fuel rest

/-- `text.match(urlRegex)` with the global flag: every match, in document
order; after a match the scan resumes at the first character past it. -/
def urlSearch (l : List Char) : List (List Char) :=
  urlSearchGo l.length l

/-! ## Keyword filter and link selection -/

/-- `pat` occurs as a contiguous subsequence of `l`. -/
def containsSeq (pat : List Char) : List Char → Bool
  | [] => startsWith pat []
  | c :: cs => startsWith pat (c :: cs) || containsSeq pat cs

/-- `/confirm|verify|login|signin|password/i.test(l)`: some alternative of
the (all-ASCII) pattern occurs in `l` up to ASCII case. -/
def hasKeywordCI (l : List Char) : Bool :=
  ["confirm".data, "verify".data, "login".data, "signin".data,
    "password".data].any (fun k => containsSeq k (l.map Char.toLower))

/-- `links.find(l => keyword.test(l)) || links[0]`: every match of the URL
regex is a non-empty (hence truthy) string, so the `||` falls through to
`links[0]` exactly when `find` returns `undefined`. -/
def selectLink (links : List (List Char)) : Option (List Char) :=
  match links.find? hasKeywordCI with
  | some l => some l
  | none => links.head?

/-! ## smartExtract -/

/-- The result object `{ code, link }` of `smartExtract`; the JavaScript
values `null`/`undefined` of a field are `none`. -/
structure ExtractResult where
  code : Option String
  link : Option String
deriving DecidableEq, Repr

/-- `smartExtract(text)` of both source variants.  The argument may be
`undefined` (`none`); the guard `if (!text) return result` also fires on
the empty string. -/
def smartExtract (text : Option String) : ExtractResult :=
  match text with
  | none => { code := none, link := none }
  | some s =>
    if s = "" then { code := none, link := none }
    else
      { code := (codeSearch false s.data).map (fun r => (⟨r⟩ : String)),
        link := (selectLink (urlSearch s.data)).map (fun r => (⟨r⟩ : String)) }

/-! ## escapeHTML and JavaScript string coercions -/

/-- One `.replace(/pat/g, rep)` step for a single-character pattern. -/
def replaceAll (pat : Char) (rep : List Char) : List Char → List Char
  | [] => []
  | c :: cs => (if c == pat then rep else [c]) ++ replaceAll pat rep cs

/-- `escapeHTML(str)` of both variants: empty or absent input yields
`""`; otherwise `&`, `<`, `>` are replaced, in that order, by their
entities. -/
def escapeHTML : Option String → String
  | none => ""
  | some s =>
    if s = "" then ""
    else ⟨replaceAll '>' "&gt;".data (replaceAll '<' "&lt;".data
      (replaceAll '&' "&amp;".data s.data))⟩

/-- `a || d` on a JavaScript string that may be `undefined`/`false`: the
default wins exactly when the value is absent or the empty string. -/
def jsOr : Option String → String → String
  | none, d => d
  | some s, d => if s = "" then d else s

/-- Template-literal interpolation of a possibly-`undefined` string:
`${undefined}` renders as the text `undefined`. -/
def jsStr : Option String → String
  | none => "undefined"
  | some s => s

/-! ## The ephemeral mail store (`mailStorage` plus `setTimeout` expiry)

The source inserts with `mailStorage.set(mailId, {...})` and schedules
`setTimeout(() => mailStorage.delete(mailId), 15 * 60 * 1000)`.  We
record the deadline at insertion; a read at millisecond clock `now` sees
exactly the entries whose deletion timer has not fired, i.e. those with
`now < expireAt`.  Reads (`mailStorage.get`) mutate nothing, which the
embedding reflects by `getAt` being a plain function of the store. -/

/-- `15 * 60 * 1000` milliseconds. -/
def ttlMs : Nat := 15 * 60 * 1000

/-- The snapshot object stored by `onData` in `src/index.js`
(the `part_000` variant stores the same object minus the `to` field). -/
structure Snapshot where
  «from» : String
  «to» : String
  subject : String
  html : Option String
  text : Option String
deriving DecidableEq, Repr

/-- One `mailStorage` entry together with its pending deletion deadline. -/
structure Entry where
  id : String
  snap : Snapshot
  expireAt : Nat
deriving DecidableEq, Repr

/-- The `mailStorage` Map, most recent insertion first. -/
abbrev MailStore := List Entry

/-- `mailStorage.set(mailId, snap)` followed by scheduling the deletion
timer `ttlMs` from now. -/
def put (st : MailStore) (id : String) (snap : Snapshot) (now : Nat) : MailStore :=
  { id := id, snap := snap, expireAt := now + ttlMs } :: st

/-- The entries still present at time `now`: every scheduled deletion
whose deadline has been reached has fired. -/
def pending (now : Nat) (st : MailStore) : MailStore :=
  st.filter (fun e => decide (now < e.expireAt))

/-- `mailStorage.get(id)` as observed at time `now`; total, `none` is the
distinguished not-found result for absent or expired keys. -/
def getAt (st : MailStore) (now : Nat) (id : String) : Option Snapshot :=
  ((pending now st).find? (fun e => e.id == id)).map Entry.snap

/-! ## The `GET /view/:id` handlers -/

/-- An HTTP response of the Hono `c.html` helper. -/
structure HtmlResponse where
  status : Nat
  body : String
deriving DecidableEq, Repr

/-- The 404 body of `src/index.js`. -/
def expiredPageIndex : String := "<h1>Ce mail a expiré ou n\x27existe pas.</h1>"

/-- The 404 body of the `part_000` variant. -/
def expiredPagePart : String := "<b>Mail expiré (limite de 15 minutes).</b>"

/-- The found-case page of `src/index.js`: sender, recipient and subject
pass through `escapeHTML`; the content block is `mail.html` when truthy,
else `<pre>${mail.text}</pre>` with the text interpolated verbatim. -/
def viewFoundIndex (mail : Snapshot) : String :=
  "\n        <!DOCTYPE html>\n        <html>\n        <head>\n            <meta charset=\"utf-8\">\n            <meta name=\"viewport\" content=\"width=device-width, initial-scale=1\">\n            <style>\n                body \x7b font-family: -apple-system, sans-serif; padding: 20px; background: #fff; color: #333; \x7d\n                .header \x7b background: #f4f4f5; padding: 15px; border-radius: 8px; margin-bottom: 20px; border-left: 5px solid #0088cc; \x7d\n                .meta \x7b color: #666; font-size: 0.9em; margin-bottom: 5px; \x7d\n                .subject \x7b font-size: 1.2em; font-weight: bold; \x7d\n                .content \x7b line-height: 1.6; word-wrap: break-word; \x7d\n                img \x7b max-width: 100%; height: auto; \x7d\n            </style>\n        </head>\n        <body>\n            <div class=\"header\">\n                <div class=\"meta\">De: "
    ++ escapeHTML (some mail.«from»)
    ++ "</div>\n                <div class=\"meta\">Pour: "
    ++ escapeHTML (some mail.«to»)
    ++ "</div>\n                <div class=\"subject\">"
    ++ escapeHTML (some mail.subject)
    ++ "</div>\n            </div>\n            <div class=\"content\">"
    ++ jsOr mail.html ("<pre>" ++ jsStr mail.text ++ "</pre>")
    ++ "</div>\n        </body>\n        </html>\n    "

/-- The found-case page of the `part_000` variant: sender and subject
pass through `escapeHTML`; the content block is `mail.html` when truthy,
else `<pre>${escapeHTML(mail.text)}</pre>` with the text escaped. -/
def viewFoundPart (mail : Snapshot) : String :=
  "\n        <html>\n        <head>\n            <meta charset=\"utf-8\">\n            <meta name=\"viewport\" content=\"width=device-width, initial-scale=1\">\n            <style>\n                body \x7b font-family: sans-serif; padding: 20px; background: #f4f4f9; \x7d\n                .card \x7b background: white; padding: 25px; border-radius: 12px; box-shadow: 0 4px 10px rgba(0,0,0,0.1); max-width: 700px; margin: auto; \x7d\n                .meta \x7b color: #555; font-size: 0.9em; margin-bottom: 10px; \x7d\n                hr \x7b border: 0; border-top: 1px solid #eee; margin: 20px 0; \x7d\n                img \x7b max-width: 100%; height: auto; \x7d\n            </style>\n        </head>\n        <body>\n            <div class=\"card\">\n                <div class=\"meta\"><b>De :</b> "
    ++ escapeHTML (some mail.«from»)
    ++ "</div>\n                <div class=\"meta\"><b>Sujet :</b> "
    ++ escapeHTML (some mail.subject)
    ++ "</div>\n                <hr>\n                <div class=\"content\">"
    ++ jsOr mail.html ("<pre>" ++ escapeHTML mail.text ++ "</pre>")
    ++ "</div>\n            </div>\n        </body>\n        </html>\n    "

/-- The `app.get('/view/:id')` handler of `src/index.js` observed at time
`now`: `c.html(page)` answers 200, `c.html(msg, 404)` answers 404. -/
def viewIndex (st : MailStore) (now : Nat) (id : String) : HtmlResponse :=
  match getAt st now id with
  | none => { status := 404, body := expiredPageIndex }
  | some mail => { status := 200, body := viewFoundIndex mail }

/-- The `app.get('/view/:id')` handler of the `part_000` variant. -/
def viewPart (st : MailStore) (now : Nat) (id : String) : HtmlResponse :=
  match getAt st now id with
  | none => { status := 404, body := expiredPagePart }
  | some mail => { status := 200, body := viewFoundPart mail }

/-! ## The SMTP `onData` intake handler (`src/index.js`) -/

/-- The fields `onData` reads from the `mailparser` result: the optional
chainings `parsed.from?.text` and `parsed.to?.text`, the subject, and the
bodies (`parsed.html` is `false`, here `none`, when the message has no
HTML part). -/
structure ParsedMail where
  fromText : Option String
  toText : Option String
  subject : Option String
  html : Option String
  text : Option String
deriving DecidableEq, Repr

/-- The snapshot `onData` builds for `mailStorage.set` (index.js lines
111-117), with the `|| "Inconnu"`, `|| "Moi"`, `|| "(Sans sujet)"`
defaults. -/
def snapshotOf (parsed : ParsedMail) : Snapshot :=
  { «from» := jsOr parsed.fromText "Inconnu",
    «to» := jsOr parsed.toText "Moi",
    subject := jsOr parsed.subject "(Sans sujet)",
    html := parsed.html,
    text := parsed.text }

/-- The Telegram message text `msg` composed by `onData`.  JavaScript
`substring(0, 100)` counts UTF-16 units; `String.take 100` counts
characters, which agrees on all basic-plane text. -/
def composeMsg (parsed : ParsedMail) (smartData : ExtractResult) : String :=
  let fromSafe := escapeHTML (some (jsOr parsed.fromText "Inconnu"))
  let toSafe := escapeHTML (some (jsOr parsed.toText "Moi"))
  let subjectSafe := escapeHTML (some (jsOr parsed.subject "(Sans sujet)"))
  let base := "📧 <b>Nouveau Mail !</b>\n"
    ++ "👤 <b>De:</b> " ++ fromSafe ++ "\n"
    ++ "📥 <b>Pour:</b> " ++ toSafe ++ "\n"
    ++ "📝 <b>Sujet:</b> " ++ subjectSafe ++ "\n\n"
  let preview := "<i>" ++ escapeHTML (some ((jsOr parsed.text "").take 100)) ++ "...</i>\n\n"
  match smartData.code with
  | some code =>
    if code = "" then base ++ preview
    else base ++ "🔑 <b>CODE DÉTECTÉ :</b>\n<code>" ++ code
      ++ "</code>\n(Clique pour copier)\n\n"
  | none => base ++ preview

/-- One inline-keyboard button. -/
structure Button where
  label : String
  url : String
deriving DecidableEq, Repr

/-- The button rows of `onData`, flattened: the web-app view button is
always present; the direct link button only when a link was detected
(and, being a regex match, a detected link is never the empty string). -/
def composeButtons (domain : String) (mailId : String) (smartData : ExtractResult) :
    List Button :=
  let base := [{ label := "👀 Voir le mail complet",
                 url := "https://" ++ domain ++ "/view/" ++ mailId : Button }]
  match smartData.link with
  | some link =>
    if link = "" then base
    else base ++ [{ label := "🔗 Ouvrir le lien de confirmation", url := link }]
  | none => base

/-- The observable outcome of one `onData` invocation: the store after
the handler ran, the attempted Telegram notification (`none` when none
was attempted), whether the send succeeded, and whether `callback()`
acknowledged the SMTP transaction. -/
structure IntakeResult where
  store : MailStore
  notification : Option (String × List Button)
  delivered : Bool
  acked : Bool
deriving DecidableEq, Repr

/-- The `onData` handler of `src/index.js` under the `simpleParser`
callback.  `parseResult` is `none` when parsing failed (`if (err) return
callback()`); `telegramOk` tells whether `bot.telegram.sendMessage`
succeeded — on failure the `catch` merely logs, so the handler always
reaches the final `callback()`. -/
def onData (domain : String) (parseResult : Option ParsedMail) (st : MailStore)
    (now : Nat) (mailId : String) (telegramOk : Bool) : IntakeResult :=
  match parseResult with
  | none => { store := st, notification := none, delivered := false, acked := true }
  | some parsed =>
    let snap := snapshotOf parsed
    let st1 := put st mailId snap now
    let smartData := smartExtract parsed.text
    let msg := composeMsg parsed smartData
    let btns := composeButtons domain mailId smartData
    { store := st1, notification := some (msg, btns),
      delivered := telegramOk, acked := true }

/-! ## Declarative descriptions of the code-detection result

`claimC1Code` renders the specification sentence verbatim: the first
contiguous run of 4 to 8 decimal digits *bounded by non-digit characters
or by start/end of the input*.  `wordBoundedCode` is the amended
description: the first maximal digit run of length 4 to 8 whose two
boundaries are non-word positions (start/end of input, or a character
outside `[A-Za-z0-9_]`), which is what the `\b` anchors of the source
regex test.  Both scan maximal digit runs left to right; the `bnd` flag
says whether the previous character qualifies as a left boundary. -/

/-- The specification's wording of code detection: digit runs delimited
by non-digit characters or the ends of the string. -/
def claimC1Code : Bool → List Char → Option (List Char)
  | _, [] => none
  | bnd, c :: rest =>
    if bnd && isDigitChar c then
      if 4 ≤ ((c :: rest).takeWhile isDigitChar).length
          ∧ ((c :: rest).takeWhile isDigitChar).length ≤ 8 then
        some ((c :: rest).takeWhile isDigitChar)
      else claimC1Code false rest
    else claimC1Code (!isDigitChar c) rest

/-- The amended description of code detection: digit runs delimited by
non-word characters or the ends of the string. -/
def wordBoundedCode : Bool → List Char → Option (List Char)
  | _, [] => none
  | bnd, c :: rest =>
    if bnd && isDigitChar c then
      if 4 ≤ ((c :: rest).takeWhile isDigitChar).length
          ∧ ((c :: rest).takeWhile isDigitChar).length ≤ 8
          ∧ ((((c :: rest).dropWhile isDigitChar).head?.all
              fun d => !isWordChar d) = true) then
        some ((c :: rest).takeWhile isDigitChar)
      else wordBoundedCode false rest
    else wordBoundedCode (!isWordChar c) rest

/-! ## Invariant of stored snapshots and concrete test data -/

/-- Sender and subject of a snapshot are both non-empty. -/
def goodSnap (s : Snapshot) : Prop := s.«from» ≠ "" ∧ s.subject ≠ ""

/-- A plain snapshot used by concrete instantiations. -/
def snap0 : Snapshot :=
  { «from» := "alice@example.test", «to» := "Moi", subject := "hello",
    html := none, text := some "hi there" }

/-- A snapshot with no HTML body whose plain-text body carries a script
tag. -/
def snapXss : Snapshot :=
  { «from» := "attacker@evil.test", «to» := "Moi", subject := "hello",
    html := none, text := some "<script>alert(1)</script>" }

/-- A snapshot with no HTML body whose subject carries a script tag. -/
def snapSubj : Snapshot :=
  { «from» := "alice@example.test", «to» := "Moi",
    subject := "<script>pwn</script>", html := none, text := some "ok" }

/-- A parsed message with every field missing or empty. -/
def parsed0 : ParsedMail :=
  { fromText := none, toText := none, subject := some "", html := none,
    text := none }

/-! # Theorems -/

/-! ## Digit runs and the code regex -/

/-- Digits are word characters. -/
theorem isWordChar_of_isDigitChar {c : Char} (h : isDigitChar c = true) :
    isWordChar c = true := by
  simp only [isDigitChar] at h
  simp [isWordChar, Char.isAlphanum, h]

/-- `\d{n}` matches at the front of `l` exactly when the maximal leading
digit run has length at least `n`. -/
theorem digitsTake_iff : ∀ (n : Nat) (l : List Char),
    digitsTake l n = true ↔ n ≤ (l.takeWhile isDigitChar).length
  | 0, l => by simp [digitsTake]
  | n + 1, [] => by simp [digitsTake]
  | n + 1, c :: cs => by
    by_cases hd : isDigitChar c = true
    · have ih := digitsTake_iff n cs
      simp only [digitsTake, List.take_succ_cons, List.length_cons, List.all_cons,
        List.takeWhile_cons, hd, if_true, Bool.and_eq_true, beq_iff_eq,
        List.all_eq_true, true_and] at ih ⊢
      constructor
      · rintro ⟨h1, h2⟩
        have := ih.mp ⟨by omega, h2⟩
        omega
      · intro h
        obtain ⟨h1, h2⟩ := ih.mpr (by omega)
        exact ⟨by omega, h2⟩
    · have hd' : isDigitChar c = false := by simpa using hd
      simp [digitsTake, List.take_succ_cons, List.all_cons, List.takeWhile_cons, hd']

/-- Inside the maximal leading digit run, the next character is a digit,
so the trailing `\b` fails there. -/
theorem boundAfter_of_lt : ∀ (n : Nat) (l : List Char),
    n < (l.takeWhile isDigitChar).length → boundAfter l n = false
  | _, [] => fun h => by simp at h
  | 0, c :: cs => fun h => by
    have hd : isDigitChar c = true := by
      by_contra hd
      have hd' : isDigitChar c = false := by simpa using hd
      simp [List.takeWhile_cons, hd'] at h
    simp [boundAfter, isWordChar_of_isDigitChar hd]
  | n + 1, c :: cs => fun h => by
    have hd : isDigitChar c = true := by
      by_contra hd
      have hd' : isDigitChar c = false := by simpa using hd
      simp [List.takeWhile_cons, hd'] at h
    have h' : n < (cs.takeWhile isDigitChar).length := by
      simp only [List.takeWhile_cons, hd, if_true, List.length_cons] at h
      omega
    have hstep : boundAfter (c :: cs) (n + 1) = boundAfter cs n := rfl
    rw [hstep]
    exact boundAfter_of_lt n cs h'

/-- Dropping exactly the maximal leading run of `p`-characters is
`dropWhile p`. -/
theorem drop_length_takeWhile (p : Char → Bool) : ∀ l : List Char,
    l.drop (l.takeWhile p).length = l.dropWhile p
  | [] => rfl
  | c :: cs => by
    by_cases hd : p c = true
    · simp only [List.takeWhile_cons, List.dropWhile_cons, hd, if_true,
        List.length_cons, List.drop_succ_cons]
      exact drop_length_takeWhile p cs
    · have hd' : p c = false := by simpa using hd
      simp [List.takeWhile_cons, List.dropWhile_cons, hd']

/-- Taking exactly the length of the maximal leading run of
`p`-characters is `takeWhile p`. -/
theorem take_length_takeWhile (p : Char → Bool) : ∀ l : List Char,
    l.take (l.takeWhile p).length = l.takeWhile p
  | [] => rfl
  | c :: cs => by
    by_cases hd : p c = true
    · simp only [List.takeWhile_cons, hd, if_true, List.length_cons,
        List.take_succ_cons, List.cons.injEq, true_and]
      exact take_length_takeWhile p cs
    · have hd' : p c = false := by simpa using hd
      simp [List.takeWhile_cons, hd']

/-- The anchored greedy `\d{4,8}\b` succeeds exactly on a maximal leading
digit run of length 4 to 8 followed by a non-word position, and then
matches that whole run: a longer attempt lacks the digits, a shorter
attempt ends inside the run where the trailing `\b` fails. -/
theorem matchCodeAt_eq (l : List Char) :
    matchCodeAt l =
      if 4 ≤ (l.takeWhile isDigitChar).length
          ∧ (l.takeWhile isDigitChar).length ≤ 8
          ∧ (((l.dropWhile isDigitChar).head?.all fun d => !isWordChar d) = true) then
        some (l.takeWhile isDigitChar)
      else none := by
  have hdt : ∀ n, digitsTake l n = decide (n ≤ (l.takeWhile isDigitChar).length) := by
    intro n
    rcases le_or_lt n (l.takeWhile isDigitChar).length with h | h
    · simp [(digitsTake_iff n l).mpr h, h]
    · have h1 : digitsTake l n = false := by
        cases hb : digitsTake l n
        · rfl
        · exact absurd ((digitsTake_iff n l).mp hb) (by omega)
      rw [h1, eq_comm, decide_eq_false_iff_not]
      omega
  have hba : ∀ n, n < (l.takeWhile isDigitChar).length → boundAfter l n = false :=
    fun n h => boundAfter_of_lt n l h
  have hbr : boundAfter l (l.takeWhile isDigitChar).length
      = ((l.dropWhile isDigitChar).head?.all fun d => !isWordChar d) := by
    unfold boundAfter
    rw [drop_length_takeWhile]
    cases hE : (l.dropWhile isDigitChar).head? <;> simp [hE]
  have htk : l.take (l.takeWhile isDigitChar).length = l.takeWhile isDigitChar :=
    take_length_takeWhile isDigitChar l
  rcases Nat.lt_or_ge (l.takeWhile isDigitChar).length 4 with h4 | h4
  · have e : ∀ n, 4 ≤ n → digitsTake l n = false := by
      intro n hn
      rw [hdt, decide_eq_false_iff_not]
      omega
    have hc : ¬(4 ≤ (l.takeWhile isDigitChar).length
        ∧ (l.takeWhile isDigitChar).length ≤ 8
        ∧ (((l.dropWhile isDigitChar).head?.all fun d => !isWordChar d) = true)) := by
      rintro ⟨a, -, -⟩
      omega
    simp [matchCodeAt, e 8 (by omega), e 7 (by omega), e 6 (by omega),
      e 5 (by omega), e 4 (by omega), hc]
  rcases Nat.lt_or_ge 8 (l.takeWhile isDigitChar).length with h8 | h8
  · have e : ∀ n, n ≤ 8 → (digitsTake l n && boundAfter l n) = false := by
      intro n hn
      rw [hba n (by omega), Bool.and_false]
    have hc : ¬(4 ≤ (l.takeWhile isDigitChar).length
        ∧ (l.takeWhile isDigitChar).length ≤ 8
        ∧ (((l.dropWhile isDigitChar).head?.all fun d => !isWordChar d) = true)) := by
      rintro ⟨-, b, -⟩
      omega
    simp [matchCodeAt, e 8 (by omega), e 7 (by omega), e 6 (by omega),
      e 5 (by omega), e 4 (by omega), hc]
  · have hcase : (l.takeWhile isDigitChar).length = 4
        ∨ (l.takeWhile isDigitChar).length = 5
        ∨ (l.takeWhile isDigitChar).length = 6
        ∨ (l.takeWhile isDigitChar).length = 7
        ∨ (l.takeWhile isDigitChar).length = 8 := by omega
    by_cases haft : ((l.dropWhile isDigitChar).head?.all fun d => !isWordChar d) = true
    · rcases hcase with h | h | h | h | h <;>
        (rw [h] at hbr htk; simp [matchCodeAt, hdt, h, hbr, haft, htk, hba])
    · rcases hcase with h | h | h | h | h <;>
        (rw [h] at hbr htk; simp [matchCodeAt, hdt, h, hbr, haft, htk, hba])

/-- One unfolding step of `wordBoundedCode` at a digit with a left
boundary. -/
theorem wordBoundedCode_cons_digit (c : Char) (rest : List Char)
    (hd : isDigitChar c = true) :
    wordBoundedCode true (c :: rest) =
      if 4 ≤ ((c :: rest).takeWhile isDigitChar).length
          ∧ ((c :: rest).takeWhile isDigitChar).length ≤ 8
          ∧ ((((c :: rest).dropWhile isDigitChar).head?.all
              fun d => !isWordChar d) = true) then
        some ((c :: rest).takeWhile isDigitChar)
      else wordBoundedCode false rest := by
  simp [wordBoundedCode, hd]

/-- One unfolding step of `wordBoundedCode` at a non-digit character. -/
theorem wordBoundedCode_cons_nondigit (bnd : Bool) (c : Char) (rest : List Char)
    (hd : isDigitChar c = false) :
    wordBoundedCode bnd (c :: rest) = wordBoundedCode (!isWordChar c) rest := by
  cases bnd <;> simp [wordBoundedCode, hd]

/-- The position-by-position scan of `/\b\d{4,8}\b/` agrees with the
declarative maximal-run description with word boundaries.  The flag on
the left records whether the previous character is a word character; on
the right, whether the current position is a left word boundary. -/
theorem codeSearch_eq_wordBounded : ∀ (l : List Char) (prevW : Bool),
    codeSearch prevW l = wordBoundedCode (!prevW) l := by
  intro l
  induction l with
  | nil => intro prevW; rfl
  | cons c rest ih =>
    intro prevW
    cases prevW with
    | true =>
      calc codeSearch true (c :: rest) = codeSearch (isWordChar c) rest := rfl
        _ = wordBoundedCode (!isWordChar c) rest := ih _
        _ = wordBoundedCode (!true) (c :: rest) := rfl
    | false =>
      show codeSearch false (c :: rest) = wordBoundedCode true (c :: rest)
      rw [show codeSearch false (c :: rest)
          = (match matchCodeAt (c :: rest) with
             | some r => some r
             | none => codeSearch (isWordChar c) rest) from rfl]
      rw [matchCodeAt_eq]
      by_cases hd : isDigitChar c = true
      · by_cases hcnd : 4 ≤ ((c :: rest).takeWhile isDigitChar).length
            ∧ ((c :: rest).takeWhile isDigitChar).length ≤ 8
            ∧ ((((c :: rest).dropWhile isDigitChar).head?.all
                fun d => !isWordChar d) = true)
        · rw [if_pos hcnd]
          show some ((c :: rest).takeWhile isDigitChar)
              = wordBoundedCode true (c :: rest)
          rw [wordBoundedCode_cons_digit c rest hd, if_pos hcnd]
        · rw [if_neg hcnd]
          show codeSearch (isWordChar c) rest = wordBoundedCode true (c :: rest)
          rw [isWordChar_of_isDigitChar hd, ih true]
          show wordBoundedCode false rest = wordBoundedCode true (c :: rest)
          rw [wordBoundedCode_cons_digit c rest hd, if_neg hcnd]
      · have hd' : isDigitChar c = false := by simpa using hd
        have hrun : (c :: rest).takeWhile isDigitChar = [] := by
          simp [List.takeWhile_cons, hd']
        rw [if_neg (by rw [hrun]; rintro ⟨a, -, -⟩; simp at a)]
        show codeSearch (isWordChar c) rest = wordBoundedCode true (c :: rest)
        rw [ih (isWordChar c)]
        show wordBoundedCode (!isWordChar c) rest = wordBoundedCode true (c :: rest)
        rw [wordBoundedCode_cons_nondigit true c rest hd']

/-! ## C1: which digit runs become the code -/

/-- C1 counterexample: in `"x1234 5678"` the first digit run of length
4 to 8 bounded by non-digit characters is `"1234"` (bounded by `x` and a
space), so the claim as stated demands code `"1234"`; the source regex
`\b\d{4,8}\b` refuses the word position between `x` and `1` and the code
actually extracted is `"5678"`. -/
theorem claim_C1_counterexample :
    claimC1Code true "x1234 5678".data = some "1234".data ∧
    (smartExtract (some "x1234 5678")).code = some "5678" := by
  constructor
  · decide
  · decide

/-- C1 amended: for every input, the extracted code is the first
contiguous run of 4 to 8 decimal digits whose two boundaries are
non-word positions (start/end of the string or a character outside
letters, digits and underscore), with the matched characters preserved;
absent when no such run exists.  In particular
`extract("Your code is 482913")` yields `"482913"`. -/
theorem claim_C1 :
    (∀ s : String, (smartExtract (some s)).code
      = (wordBoundedCode true s.data).map (fun r => (⟨r⟩ : String))) ∧
    (smartExtract (some "Your code is 482913")).code = some "482913" := by
  constructor
  · intro s
    by_cases hs : s = ""
    · subst hs
      decide
    · have hcode : (smartExtract (some s)).code
          = (codeSearch false s.data).map (fun r => (⟨r⟩ : String)) := by
        simp [smartExtract, hs]
      rw [hcode, codeSearch_eq_wordBounded s.data false]
      rfl
  · decide

/-! ## C2: which link is selected -/

/-- A successful `find` returns a satisfying element and everything
before it fails the predicate. -/
theorem find?_some_split {α : Type} (p : α → Bool) :
    ∀ (xs : List α) (x : α), xs.find? p = some x →
      p x = true ∧ ∃ l1 l2, xs = l1 ++ x :: l2 ∧ ∀ y ∈ l1, p y = false
  | [], x => by simp
  | a :: as, x => fun h => by
    cases hpa : p a with
    | true =>
      simp only [List.find?, hpa] at h
      obtain rfl : a = x := Option.some.inj h
      exact ⟨hpa, [], as, rfl, by simp⟩
    | false =>
      simp only [List.find?, hpa] at h
      obtain ⟨hx, l1, l2, rfl, hall⟩ := find?_some_split p as x h
      refine ⟨hx, a :: l1, l2, rfl, ?_⟩
      intro y hy
      rcases List.mem_cons.mp hy with rfl | hy
      · exact hpa
      · exact hall y hy

/-- C2: the selected link is absent exactly when the text has no URL
match; otherwise it is the first match containing a keyword
(case-insensitively one of confirm/verify/login/signin/password), every
earlier match being keyword-free — or, when no match contains a keyword,
the first match in document order. -/
theorem claim_C2 (s : String) :
    ((smartExtract (some s)).link = none ↔ urlSearch s.data = []) ∧
    (∀ t : List Char, (smartExtract (some s)).link = some (⟨t⟩ : String) →
      (hasKeywordCI t = true ∧
        ∃ l1 l2, urlSearch s.data = l1 ++ t :: l2 ∧ ∀ u ∈ l1, hasKeywordCI u = false)
      ∨ ((∀ u ∈ urlSearch s.data, hasKeywordCI u = false)
          ∧ (urlSearch s.data).head? = some t)) := by
  by_cases hs : s = ""
  · subst hs
    constructor
    · simp [smartExtract, urlSearch, urlSearchGo]
    · intro t ht
      simp [smartExtract] at ht
  · have hlink : (smartExtract (some s)).link
        = (selectLink (urlSearch s.data)).map (fun r => (⟨r⟩ : String)) := by
      simp [smartExtract, hs]
    constructor
    · rw [hlink]
      cases hls : urlSearch s.data with
      | nil => simp [selectLink]
      | cons a as =>
        simp only [Option.map_eq_none']
        constructor
        · intro hsel
          exfalso
          rcases hf : (a :: as).find? hasKeywordCI with _ | u <;>
            simp [selectLink, hf] at hsel
        · intro h
          exact absurd h (by simp)
    · intro t ht
      rw [hlink] at ht
      rcases hsel : selectLink (urlSearch s.data) with _ | u
      · rw [hsel] at ht
        simp at ht
      · rw [hsel] at ht
        simp only [Option.map_some'] at ht
        have hut : u = t := congrArg String.data (Option.some.inj ht)
        subst hut
        rcases hf : (urlSearch s.data).find? hasKeywordCI with _ | v
        · right
          have hall : ∀ w ∈ urlSearch s.data, hasKeywordCI w = false := by
            intro w hw
            have := List.find?_eq_none.mp hf w hw
            simpa using this
          refine ⟨hall, ?_⟩
          simpa [selectLink, hf] using hsel
        · left
          have hv : v = u := by
            simpa [selectLink, hf] using hsel
          subst hv
          exact find?_some_split hasKeywordCI (urlSearch s.data) v hf

/-- Witness for C2: with a keyword-free URL first and a `verify` URL
second, the second is selected. -/
theorem claim_C2_witness :
    (hasKeywordCI "https://b.test/verifyme".data = true ∧
      ∃ l1 l2, urlSearch "go https://a.test/x then https://b.test/verifyme".data
          = l1 ++ "https://b.test/verifyme".data :: l2 ∧
        ∀ u ∈ l1, hasKeywordCI u = false)
    ∨ ((∀ u ∈ urlSearch "go https://a.test/x then https://b.test/verifyme".data,
          hasKeywordCI u = false)
        ∧ (urlSearch "go https://a.test/x then https://b.test/verifyme".data).head?
          = some "https://b.test/verifyme".data) :=
  (claim_C2 "go https://a.test/x then https://b.test/verifyme").2
    "https://b.test/verifyme".data (by decide)

/-! ## C3: escaping in the view handlers -/

set_option maxRecDepth 100000 in
/-- C3 on the failing input: a stored message with no HTML body and the
script tag in its plain-text body.  The `index.js` view handler
interpolates `mail.text` into the `<pre>` block unescaped, so the literal
`<script>` reaches the page, contradicting the claim; the `part_000`
variant applies `escapeHTML` there, its page carries only the escaped
entities.  The subject is escaped by both handlers: a `<script>` subject
never appears literally. -/
theorem claim_C3 :
    containsSeq "<script>".data (viewFoundIndex snapXss).data = true ∧
    containsSeq "<script>".data (viewFoundPart snapXss).data = false ∧
    containsSeq "&lt;script&gt;alert(1)&lt;/script&gt;".data
      (viewFoundPart snapXss).data = true ∧
    containsSeq "<script>".data (viewFoundIndex snapSubj).data = false ∧
    containsSeq "&lt;script&gt;".data (viewFoundIndex snapSubj).data = true := by
  refine ⟨by decide, by decide, by decide, by decide, by decide⟩

/-! ## Store lemmas -/

/-- A freshly inserted entry is visible at insertion time: its timer has
not fired and it shadows the rest of the store. -/
theorem getAt_put_self (st : MailStore) (id : String) (snap : Snapshot) (t0 : Nat) :
    getAt (put st id snap t0) t0 id = some snap := by
  have h : t0 < t0 + ttlMs := by simp [ttlMs]
  simp [getAt, put, pending, List.filter_cons, h, List.find?_cons]

/-- A freshly inserted entry is visible at any instant before its timer
deadline. -/
theorem getAt_put_live (st : MailStore) (id : String) (snap : Snapshot)
    (t0 t : Nat) (h : t < t0 + ttlMs) :
    getAt (put st id snap t0) t id = some snap := by
  simp [getAt, put, pending, List.filter_cons, h, List.find?_cons]

/-- Once the deadline of a fresh identifier has been reached, the lookup
reports not-found. -/
theorem getAt_put_expired (st : MailStore) (id : String) (snap : Snapshot)
    (t0 t : Nat) (hfresh : ∀ e ∈ st, e.id ≠ id) (h : t0 + ttlMs ≤ t) :
    getAt (put st id snap t0) t id = none := by
  have h2 : ¬ t < t0 + ttlMs := by omega
  simp only [getAt, put, pending, List.filter_cons, decide_eq_true_eq, h2,
    if_false, Option.map_eq_none']
  rw [List.find?_eq_none]
  intro e he
  have hmem : e ∈ st := List.mem_of_mem_filter he
  simpa using hfresh e hmem

/-- Every snapshot a lookup can return is the snapshot of an entry of the
store. -/
theorem getAt_mem (st : MailStore) (now : Nat) (id : String) (q : Snapshot)
    (h : getAt st now id = some q) : ∃ e ∈ st, e.snap = q := by
  rcases hf : (pending now st).find? (fun e => e.id == id) with _ | e
  · simp [getAt, hf] at h
  · have he : e ∈ pending now st := List.mem_of_find?_eq_some hf
    have hmem : e ∈ st := List.mem_of_mem_filter he
    refine ⟨e, hmem, ?_⟩
    simpa [getAt, hf] using h

/-- `x || default` is never empty when the default is not. -/
theorem jsOr_ne_empty (o : Option String) (d : String) (hd : d ≠ "") :
    jsOr o d ≠ "" := by
  cases o with
  | none => simpa [jsOr] using hd
  | some s =>
    by_cases hs : s = "" <;> simp [jsOr, hs, hd]

/-- Every snapshot built by the intake handler has a non-empty sender and
subject, thanks to the `|| "Inconnu"` and `|| "(Sans sujet)"` defaults. -/
theorem goodSnap_snapshotOf (parsed : ParsedMail) : goodSnap (snapshotOf parsed) :=
  ⟨jsOr_ne_empty _ _ (by decide), jsOr_ne_empty _ _ (by decide)⟩

/-! ## C4: fixed 15-minute lifetime, no renewal on read

In the embedding a read is the pure function `getAt`: `mailStorage.get`
performs no write and schedules nothing, so visibility at an instant `t`
depends only on the insertion instant, which is what the two bounds below
express. -/

/-- C4: an entry inserted at `t0` is returned at every instant of
`[t0, t0 + 15min)` and is gone at every instant from `t0 + 15min` on;
no intervening read can change this, reads being pure. -/
theorem claim_C4 (st : MailStore) (id : String) (snap : Snapshot) (t0 t : Nat)
    (hfresh : ∀ e ∈ st, e.id ≠ id) (hins : t0 ≤ t) :
    (t < t0 + ttlMs → getAt (put st id snap t0) t id = some snap) ∧
    (t0 + ttlMs ≤ t → getAt (put st id snap t0) t id = none) :=
  ⟨fun h => getAt_put_live st id snap t0 t h,
   fun h => getAt_put_expired st id snap t0 t hfresh h⟩

/-- Witness for C4 at a concrete store, identifier and two instants. -/
theorem claim_C4_witness :
    getAt (put [] "id0" snap0 0) 1 "id0" = some snap0 ∧
    getAt (put [] "id0" snap0 0) ttlMs "id0" = none := by
  constructor
  · exact (claim_C4 [] "id0" snap0 0 1 (by simp) (by omega)).1 (by decide)
  · exact (claim_C4 [] "id0" snap0 0 ttlMs (by simp) (by decide)).2 (by decide)

/-! ## C5: round-trip immediately after insertion -/

/-- C5: immediately after `put` returns an identifier, `get` on that
identifier returns the inserted snapshot. -/
theorem claim_C5 (st : MailStore) (id : String) (snap : Snapshot) (t0 : Nat) :
    getAt (put st id snap t0) t0 id = some snap :=
  getAt_put_self st id snap t0

/-! ## C6: empty and absent extraction input -/

/-- C6: `smartExtract` on `undefined` and on the empty string returns
both fields absent (the function is total, so no error is possible). -/
theorem claim_C6 :
    smartExtract none = { code := none, link := none } ∧
    smartExtract (some "") = { code := none, link := none } := by
  exact ⟨rfl, by decide⟩

/-! ## C7: lookups and the view handlers on unknown identifiers -/

/-- C7: `getAt` is total with `none` as its distinguished not-found
result, and on any absent or expired identifier both view handlers reply
with their fixed expired page and status 404. -/
theorem claim_C7 (st : MailStore) (now : Nat) (id : String)
    (h : getAt st now id = none) :
    viewIndex st now id = { status := 404, body := expiredPageIndex } ∧
    viewPart st now id = { status := 404, body := expiredPagePart } := by
  constructor <;> simp [viewIndex, viewPart, h]

/-- Witness for C7 on the empty store and an arbitrary identifier. -/
theorem claim_C7_witness :
    viewIndex [] 0 "no-such-id" = { status := 404, body := expiredPageIndex } ∧
    viewPart [] 0 "no-such-id" = { status := 404, body := expiredPagePart } :=
  claim_C7 [] 0 "no-such-id" rfl

/-! ## C8: parse failures -/

/-- C8: when `simpleParser` reports an error, `onData` stores nothing,
attempts no notification, and still acknowledges the transaction with
`callback()`; the store is returned unchanged. -/
theorem claim_C8 (domain : String) (st : MailStore) (now : Nat)
    (mailId : String) (telegramOk : Bool) :
    onData domain none st now mailId telegramOk =
      { store := st, notification := none, delivered := false, acked := true } :=
  rfl

/-! ## C9: notification failures are swallowed -/

/-- C9: when the Telegram send fails, intake still acknowledges, the
resulting store is identical to the successful-send store (no retry, no
rollback), and the snapshot of the message remains retrievable. -/
theorem claim_C9 (domain : String) (parsed : ParsedMail) (st : MailStore)
    (now : Nat) (mailId : String) :
    (onData domain (some parsed) st now mailId false).acked = true ∧
    (onData domain (some parsed) st now mailId false).store
      = (onData domain (some parsed) st now mailId true).store ∧
    getAt (onData domain (some parsed) st now mailId false).store now mailId
      = some (snapshotOf parsed) :=
  ⟨rfl, rfl, getAt_put_self st mailId (snapshotOf parsed) now⟩

/-! ## C10: stored snapshots always carry a sender and a subject -/

/-- C10: intake only ever inserts snapshots with non-empty sender and
subject (the placeholders "Inconnu" and "(Sans sujet)" replace missing or
empty parses), so if the whole store satisfies that invariant beforehand
it still does afterwards, and any successful lookup returns a snapshot
satisfying it. -/
theorem claim_C10 (domain : String) (parsed : ParsedMail) (st : MailStore)
    (now : Nat) (mailId : String) (telegramOk : Bool)
    (hinv : ∀ e ∈ st, goodSnap e.snap) :
    (∀ e ∈ (onData domain (some parsed) st now mailId telegramOk).store,
      goodSnap e.snap) ∧
    (∀ (t : Nat) (i : String) (q : Snapshot),
      getAt (onData domain (some parsed) st now mailId telegramOk).store t i
        = some q → goodSnap q) := by
  have hstore : ∀ e ∈ (onData domain (some parsed) st now mailId telegramOk).store,
      goodSnap e.snap := by
    intro e he
    rcases List.mem_cons.mp he with rfl | hmem
    · exact goodSnap_snapshotOf parsed
    · exact hinv e hmem
  refine ⟨hstore, ?_⟩
  intro t i q hq
  rcases getAt_mem _ t i q hq with ⟨e, hmem, rfl⟩
  exact hstore e hmem

/-- Witness for C10 on the empty store and a fully-degenerate parsed
message. -/
theorem claim_C10_witness :
    (∀ e ∈ (onData "d.test" (some parsed0) [] 0 "id0" true).store,
      goodSnap e.snap) ∧
    (∀ (t : Nat) (i : String) (q : Snapshot),
      getAt (onData "d.test" (some parsed0) [] 0 "id0" true).store t i
        = some q → goodSnap q) :=
  claim_C10 "d.test" parsed0 [] 0 "id0" true (by simp)

end Mailtrash
